import Mathlib

/-!
Shallow embedding of the MDF 3.x reader/writer core (`mdfreader/mdf3reader.py`):
the conversion engine, the bit-repack post-step, the type encoder, the unsorted
block reader and the writer's IDBlock emission, together with theorems checking
the natural-language specification against them.

Numeric columns are modelled as lists of rationals (the file's samples are
machine integers and IEEE floats; the claims under study are exact-arithmetic
branch and table-lookup properties, so `ℚ` is the faithful carrier).  Byte
streams are lists of naturals below 256.
-/

namespace Mdf3

/-- A numeric column together with its numpy dtype tag, so that statements about
dtype preservation can be made.  `dtype` is the numpy dtype string of the
underlying array. -/
structure Column where
  dtype : String
  values : List ℚ
  deriving DecidableEq, Repr

/-- numpy dtype promotion of a column combined with Python float scalars:
float columns keep their dtype, everything else becomes `float64`. -/
def floatPromote (d : String) : String :=
  if d = "float32" ∨ d = "float64" then d else "float64"

/-- `linearConv` (source line 46, conversion type 0): if `P2 == 1.0` and
`P1 in (0.0, -0.0)` (Python float equality, so `P1 == 0`), the raw column
object is returned unchanged; otherwise `data * P2 + P1`, a numpy expression
producing a float column. -/
def linearConv (data : Column) (P1 P2 : ℚ) : Column :=
  if P2 = 1 ∧ P1 = 0 then data
  else ⟨floatPromote data.dtype, data.values.map fun v => v * P2 + P1⟩

/-- The seven `P1..P7` parameters of an exponential / logarithmic
conversion block. -/
structure ExpParams where
  P1 : ℚ
  P2 : ℚ
  P3 : ℚ
  P4 : ℚ
  P5 : ℚ
  P6 : ℚ
  P7 : ℚ
  deriving DecidableEq, Repr

/-- `expConv` (source line 116, conversion type 7), parameterised by the
transcendental `E` (`math.exp`; `logConv` at line 137 is the same code with
`math.log`, so it is the same Lean function at a different `E`).  The
formula branches apply the scalar `math.exp` (imported from `math`, source
line 32) to the whole numpy column expression: Python converts a numpy array
to the scalar `math.exp` expects only when it has exactly one element, and
raises `TypeError` for every other length, so only a size-1 column produces
the branch formula's value; any other column leaves no converted value,
modelled as `none`.  When neither parameter branch holds the source prints a
warning to stderr and falls off the end returning Python `None` — also no
converted value, `none` (the two failure modes differ in Python — exception
versus returned `None` — but both leave no converted column, and every
theorem below that depends on the distinction evaluates a concrete input
whose failure mode is unambiguous). -/
def expConvData (E : ℚ → ℚ) (conv : ExpParams) (data : List ℚ) : Option (List ℚ) :=
  if conv.P4 = 0 ∧ conv.P1 ≠ 0 ∧ conv.P2 ≠ 0 then
    match data with
    | [x] => some [E (((x - conv.P7) * conv.P6 - conv.P3) / conv.P1) / conv.P2]
    | _ => none
  else if conv.P1 = 0 ∧ conv.P4 ≠ 0 ∧ conv.P5 ≠ 0 then
    match data with
    | [x] => some [E ((conv.P3 / (x - conv.P7) - conv.P6) / conv.P4) / conv.P5]
    | _ => none
  else
    none

/-- One `(lowerRange, upperRange, Textrange)` triple of a text range table. -/
abbrev RangePair := ℚ × ℚ × String

/-- Scan of the inner loop of `textRangeTableConv` (source line 225): first
triple, in table order, whose closed interval contains `d`. -/
def findRange (d : ℚ) : List RangePair → Option String
  | [] => none
  | (lo, hi, t) :: rest => if lo ≤ d ∧ d ≤ hi then some t else findRange d rest

/-- `textRangeTableConv` (source line 204, conversion type 12): for each sample
the default is the text at index 0; indices `1..npair-1` are scanned in order
and the first containing interval wins.  An empty table makes `text[0]` raise
`IndexError`, swallowed by the enclosing `except` which returns `None`,
modelled as `none`. -/
def textRangeTableConv (data : List ℚ) (conv : List RangePair) : Option (List String) :=
  match conv with
  | [] => none
  | t0 :: rest => some (data.map fun d => (findRange d rest).getD t0.2.2)

/-- Leftmost insertion point: `numpy.searchsorted(xs, v, side='left')` for a
sorted `xs` returns the first index whose element is `≥ v`, or `len(xs)` when
every element is `< v`.  Structural rendering of that contract. -/
def searchsorted (xs : List ℚ) (v : ℚ) : ℕ :=
  match xs with
  | [] => 0
  | x :: rest => if v ≤ x then 0 else searchsorted rest v + 1

/-- `tabConv` (source line 82, conversion type 2): `searchsorted` into the
table's `int` column, then fancy-index the `phys` column.  An index equal to
the table length raises `IndexError` (nothing catches it), modelled as
`none`. -/
def tabConv (table : List (ℚ × ℚ)) (data : List ℚ) : Option (List ℚ) :=
  data.mapM fun d => (table.map Prod.snd).get? (searchsorted (table.map Prod.fst) d)

/-- Written from the spec's words for claim C7 only: a nearest-not-greater
(floor) lookup, "the entry whose x is the largest value not exceeding the
input"; to be compared with `tabConv`.  For a table sorted on `x` the last
entry with `x ≤ d` is that largest one. -/
def nearestNotGreaterConv (table : List (ℚ × ℚ)) (data : List ℚ) : Option (List ℚ) :=
  data.mapM fun d => ((table.filter fun p => p.1 ≤ d).getLast?).map Prod.snd

/-- The bit-repack post-step of `mdf3.read3` (source lines 842-848) applied to
one decoded value.  The guard `not bitCount // 8.0 == bitCount / 8.0` is
`bitCount % 8 ≠ 0` (the float arithmetic is exact at these magnitudes); the
mask is `int(pow(2, bitCount) - 1) = 2^bitCount - 1` (integer `pow`).  `v` is
the decoded value's two's-complement bit pattern; `numpy.right_shift` and
`numpy.bitwise_and` act on that pattern.  For the non-integer signal types the
source only prints a warning and leaves the value alone. -/
def repack3 (bitCount bitOffset signalDataType : ℕ) (v : ℕ) : ℕ :=
  if bitCount % 8 ≠ 0 then
    if signalDataType = 0 ∨ signalDataType = 1 ∨ signalDataType = 9 ∨
        signalDataType = 10 ∨ signalDataType = 13 ∨ signalDataType = 14 then
      (v >>> bitOffset) &&& (2 ^ bitCount - 1)
    else v
  else v

/-- numpy scalar kind and byte width (in bytes) of a dtype produced by the
type encoder: `u`/`i`/`f` are the unsigned/signed/float kinds, `S`/`V` the
fixed-width string and raw-bytes kinds. -/
inductive NpBase where
  | u (bytes : ℕ)
  | i (bytes : ℕ)
  | f (bytes : ℕ)
  | S (bytes : ℕ)
  | V (bytes : ℕ)
  deriving DecidableEq, Repr

/-- Byte-order mark prefixed to the dtype string: `<`, `>`, or no prefix. -/
inductive Bom where
  | le
  | be
  | na
  deriving DecidableEq, Repr

/-- A numpy dtype as produced by `_arrayformat3`: base kind/width plus
byte-order mark. -/
structure NpType where
  base : NpBase
  bom : Bom
  deriving DecidableEq, Repr

/-- Bit width carried by the base kind. -/
def NpBase.bits : NpBase → ℕ
  | .u b => 8 * b
  | .i b => 8 * b
  | .f b => 8 * b
  | .S b => 8 * b
  | .V b => 8 * b

/-- The byte-order branch shared verbatim by the tails of `_arrayformat3` and
`_datatypeformat3` (source lines 1286-1295 and 1355-1364): types 0-3 follow
the file flag, 13-16 are always little-endian, 9-12 always big-endian, and
everything else (7/8 and unknown tags) gets no prefix. -/
def _fmtBom (signalDataType : ℕ) (byteOrder : Bool) : Bom :=
  if signalDataType = 0 ∨ signalDataType = 1 ∨ signalDataType = 2 ∨ signalDataType = 3 then
    (if byteOrder then .be else .le)
  else if signalDataType = 13 ∨ signalDataType = 14 ∨ signalDataType = 15 ∨
      signalDataType = 16 then .le
  else if signalDataType = 9 ∨ signalDataType = 10 ∨ signalDataType = 11 ∨
      signalDataType = 12 then .be
  else .na

/-- The base-dtype branch of `_arrayformat3` (source lines 1316-1353).  On an
unsupported combination the source only prints to stderr, leaves `dataType`
unassigned and crashes with `UnboundLocalError` when building or returning
it: modelled as `none`. -/
def _arrayBase (signalDataType numberOfBits : ℕ) : Option NpBase :=
  if signalDataType = 0 ∨ signalDataType = 9 ∨ signalDataType = 13 then
    if numberOfBits ≤ 8 then some (.u 1)
    else if numberOfBits ≤ 16 then some (.u 2)
    else if numberOfBits ≤ 32 then some (.u 4)
    else if numberOfBits ≤ 64 then some (.u 8)
    else none
  else if signalDataType = 1 ∨ signalDataType = 10 ∨ signalDataType = 14 then
    if numberOfBits ≤ 8 then some (.i 1)
    else if numberOfBits ≤ 16 then some (.i 2)
    else if numberOfBits ≤ 32 then some (.i 4)
    else if numberOfBits ≤ 64 then some (.i 8)
    else none
  else if signalDataType = 2 ∨ signalDataType = 3 ∨ signalDataType = 11 ∨
      signalDataType = 12 ∨ signalDataType = 15 ∨ signalDataType = 16 then
    if numberOfBits = 32 then some (.f 4)
    else if numberOfBits = 64 then some (.f 8)
    else none
  else if signalDataType = 7 then some (.S (numberOfBits / 8))
  else if signalDataType = 8 then some (.V (numberOfBits / 8))
  else none

/-- `_arrayformat3` (source line 1300): numpy dtype from signal type and bit
count — the base dtype with the byte-order mark attached. -/
def _arrayformat3 (signalDataType numberOfBits : ℕ) (byteOrder : Bool) : Option NpType :=
  (_arrayBase signalDataType numberOfBits).map fun b =>
    ⟨b, _fmtBom signalDataType byteOrder⟩

/-- The format-code branch of `_datatypeformat3` (source lines 1247-1284);
failure cases are exactly those of `_arrayBase`. -/
def _dtCode (signalDataType numberOfBits : ℕ) : Option String :=
  if signalDataType = 0 ∨ signalDataType = 9 ∨ signalDataType = 13 then
    if numberOfBits ≤ 8 then some "B"
    else if numberOfBits ≤ 16 then some "H"
    else if numberOfBits ≤ 32 then some "I"
    else if numberOfBits ≤ 64 then some "Q"
    else none
  else if signalDataType = 1 ∨ signalDataType = 10 ∨ signalDataType = 14 then
    if numberOfBits ≤ 8 then some "b"
    else if numberOfBits ≤ 16 then some "h"
    else if numberOfBits ≤ 32 then some "i"
    else if numberOfBits ≤ 64 then some "q"
    else none
  else if signalDataType = 2 ∨ signalDataType = 3 ∨ signalDataType = 11 ∨
      signalDataType = 12 ∨ signalDataType = 15 ∨ signalDataType = 16 then
    if numberOfBits = 32 then some "f"
    else if numberOfBits = 64 then some "d"
    else none
  else if signalDataType = 7 then some (toString (numberOfBits / 8) ++ "s")
  else if signalDataType = 8 then some (toString (numberOfBits / 8) ++ "s")
  else none

/-- `_datatypeformat3` (source line 1232): the struct-module format code,
paired with the byte-order mark the source prepends as `<`/`>`. -/
def _datatypeformat3 (signalDataType numberOfBits : ℕ) (byteOrder : Bool) :
    Option (String × Bom) :=
  (_dtCode signalDataType numberOfBits).map fun s =>
    (s, _fmtBom signalDataType byteOrder)

/-- Byte width the integer if-chains widen `n` bits to (meaningful for
`n ≤ 64`). -/
def widenBytes (n : ℕ) : ℕ :=
  if n ≤ 8 then 1 else if n ≤ 16 then 2 else if n ≤ 32 then 4 else 8

/-- Bit width denoted by a struct-module integer format code (0 for the
non-integer codes). -/
def structCodeBits (s : String) : ℕ :=
  if s = "B" ∨ s = "b" then 8
  else if s = "H" ∨ s = "h" then 16
  else if s = "I" ∨ s = "i" then 32
  else if s = "Q" ∨ s = "q" then 64
  else 0

/-- The spec's "widen n_bits up to the next of {8, 16, 32, 64}": `w` is a
member of that set, at least `n`, and no smaller member is at least `n`. -/
def IsNextWidth (n w : ℕ) : Prop :=
  w ∈ ([8, 16, 32, 64] : List ℕ) ∧ n ≤ w ∧
    ∀ w2 ∈ ([8, 16, 32, 64] : List ℕ), n ≤ w2 → w ≤ w2

/-- The conversion attached to a channel, restricted to the kinds the claims
under study exercise; every other tag is the source's identity passthrough
(`.other`). -/
inductive Conv3 where
  | tab (table : List (ℚ × ℚ))
  | exp (p : ExpParams)
  | log (p : ExpParams)
  | other
  deriving Repr

/-- A stored channel of the `mdf_skeleton` container: its data column (Python
`None` representable, hence `Option`) and its optional conversion block. -/
structure Chan3 where
  data : Option (List ℚ)
  conversion : Option Conv3

/-- `mdf3._convert3` (source line 885): dispatch on the conversion type,
returning whatever the conversion function returns (for exp/log with bad
parameters that is Python `None`, i.e. `none`); a channel without conversion,
or with an unhandled tag, yields its stored data.  `E` and `L` stand for
`math.exp` and `math.log`. -/
def _convert3 (E L : ℚ → ℚ) (c : Chan3) : Option (List ℚ) :=
  match c.conversion with
  | none => c.data
  | some cv =>
    c.data.bind fun d =>
      match cv with
      | .tab table => tabConv table d
      | .exp p => expConvData E p d
      | .log p => expConvData L p d
      | .other => some d

/-- Modelled from the spec: `mdf_skeleton.setChannelData` is not under `src/`;
the spec describes the container as "a plain mapping with helper accessors",
so the setter stores the given value as the channel's data, unconditionally. -/
def setChannelData (c : Chan3) (d : Option (List ℚ)) : Chan3 :=
  ⟨d, c.conversion⟩

/-- Modelled from the spec: `mdf_skeleton.remove_channel_conversion` is not
under `src/`; it drops the channel's conversion block. -/
def remove_channel_conversion (c : Chan3) : Chan3 :=
  ⟨c.data, none⟩

/-- `mdf3._convertChannel3` (source line 923): store the result of `_convert3`
as the channel's data, then drop the conversion. -/
def _convertChannel3 (E L : ℚ → ℚ) (c : Chan3) : Chan3 :=
  remove_channel_conversion (setChannelData c (_convert3 E L c))

/-- Slice-unpack format of a channel in the unsorted reader: the two formats
the S4 scenario needs, `Struct('B')` and `Struct('<H')`. -/
inductive CFmt where
  | u8
  | u16le
  deriving DecidableEq, Repr

/-- `Struct.unpack` of a slice of bytes for the formats above. -/
def unpackVal : CFmt → List ℕ → ℕ
  | .u8, bs => bs.getD 0 0
  | .u16le, bs => bs.getD 0 0 + 256 * bs.getD 1 0

/-- The positional fields of a `Channel` that `readRecordBuf` uses:
`posByteBeg`/`posByteEnd` already include the leading record-ID byte
(`posByteBeg = recordIDnumber + byteOffset`, source line 317). -/
structure Chan1 where
  name : String
  posByteBeg : ℕ
  posByteEnd : ℕ
  fmt : CFmt

/-- The fields of a `record` (channel-group schema) that the unsorted reader
uses: `CGrecordLength` is `dataRecordSize` from the CG block, which excludes
the record-ID bytes. -/
structure Rec1 where
  CGrecordLength : ℕ
  channels : List Chan1

/-- `record.readRecordBuf` (source line 569): per channel, slice
`buf[posByteBeg:posByteEnd]` out of the record buffer and unpack it. -/
def readRecordBuf (r : Rec1) (buf : List ℕ) : List (String × ℕ) :=
  r.channels.map fun c =>
    (c.name, unpackVal c.fmt ((buf.drop c.posByteBeg).take (c.posByteEnd - c.posByteBeg)))

/-- Failure of the unsorted reader: an ID byte with no registered schema
(Python `KeyError`), or fuel exhaustion of the model's loop (unreachable for
positive record lengths and the fuel `loadUnSorted` passes). -/
inductive UErr where
  | unknownID (id : ℕ)
  | noProgress
  deriving DecidableEq, Repr

/-- The loop of `DATA.loadUnSorted` (source lines 700-705): while the cursor
is inside the block, read the byte at the cursor as record ID, look the schema
up (the source reads it from the free variable `record` — the class, a name
collision the spec's design notes acknowledge and direct implementations to
resolve through the DATA container, as modelled here via `schemas`), unpack
one record from `stream[position : position + CGrecordLength + 1]`, then
advance the cursor by `CGrecordLength` exactly as written — the leading
record-ID byte is NOT consumed by that advance. -/
def loadUnSortedAux (schemas : ℕ → Option Rec1) (stream : List ℕ) :
    ℕ → ℕ → Except UErr (List (String × ℕ))
  | _, 0 => .error .noProgress
  | position, fuel + 1 =>
    if h : position < stream.length then
      match schemas (stream.get ⟨position, h⟩) with
      | none => .error (.unknownID (stream.get ⟨position, h⟩))
      | some r =>
        let temp := readRecordBuf r ((stream.drop position).take (r.CGrecordLength + 1))
        match loadUnSortedAux schemas stream (position + r.CGrecordLength) fuel with
        | .error e => .error e
        | .ok rest => .ok (temp ++ rest)
    else .ok []

/-- `DATA.loadUnSorted` (source line 675): run the loop from cursor 0 over the
whole block.  The per-channel `append` accumulation is modelled by returning
the decoded `(channel, value)` pairs in decode order; `channelColumn`
recovers each per-channel vector. -/
def loadUnSorted (schemas : ℕ → Option Rec1) (stream : List ℕ) :
    Except UErr (List (String × ℕ)) :=
  loadUnSortedAux schemas stream 0 (stream.length + 1)

/-- Modelled from the spec: the S4 scenario and §4.E require each loop
iteration to consume the record-ID byte together with the record, so the
cursor advances by `CGrecordLength + 1` (record-ID width 1).  Identical to
`loadUnSortedAux` otherwise; used to exhibit what the claimed behaviour
produces on the S4 block. -/
def loadUnSortedFixedAux (schemas : ℕ → Option Rec1) (stream : List ℕ) :
    ℕ → ℕ → Except UErr (List (String × ℕ))
  | _, 0 => .error .noProgress
  | position, fuel + 1 =>
    if h : position < stream.length then
      match schemas (stream.get ⟨position, h⟩) with
      | none => .error (.unknownID (stream.get ⟨position, h⟩))
      | some r =>
        let temp := readRecordBuf r ((stream.drop position).take (r.CGrecordLength + 1))
        match loadUnSortedFixedAux schemas stream (position + r.CGrecordLength + 1) fuel with
        | .error e => .error e
        | .ok rest => .ok (temp ++ rest)
    else .ok []

/-- Modelled from the spec: driver for `loadUnSortedFixedAux`. -/
def loadUnSortedFixed (schemas : ℕ → Option Rec1) (stream : List ℕ) :
    Except UErr (List (String × ℕ)) :=
  loadUnSortedFixedAux schemas stream 0 (stream.length + 1)

/-- Per-channel vector accumulated by the unsorted reader, in decode order. -/
def channelColumn (out : List (String × ℕ)) (name : String) : List ℕ :=
  (out.filter fun p => p.1 == name).map Prod.snd

/-- The S4 record schemas: record ID 1 is one uint8 channel in a 1-byte
record, record ID 2 one uint16-LE channel in a 2-byte record; channel
positions include the leading ID byte. -/
def s4Schemas : ℕ → Option Rec1 := fun n =>
  if n = 1 then some ⟨1, [⟨"ch1", 1, 2, .u8⟩]⟩
  else if n = 2 then some ⟨2, [⟨"ch2", 1, 3, .u16le⟩]⟩
  else none

/-- The S4 block bytes `01 AA 02 34 12 01 BB`. -/
def s4Stream : List ℕ := [0x01, 0xAA, 0x02, 0x34, 0x12, 0x01, 0xBB]

/-- latin-1 bytes of a string (all characters involved are ASCII). -/
def strBytes (s : String) : List ℕ := s.toList.map Char.toNat

/-- `struct.pack('<H', v)`: two little-endian bytes. -/
def packUInt16 (v : ℕ) : List ℕ := [v % 256, v / 256 % 256]

/-- The 64 IDBlock bytes emitted first by `mdf3.write3` (source lines
1004-1012): magic, version string, program id, byte-order 0, float format 0,
version number 330, code page 28591, 32 reserved zero bytes.  `writeChar`
with no size argument writes the latin-1 bytes of the string exactly, with no
terminator. -/
def write3IdBlock : List ℕ :=
  strBytes "MDF     " ++ strBytes "3.30    " ++ strBytes "MDFreadr" ++
  packUInt16 0 ++ packUInt16 0 ++ packUInt16 330 ++ packUInt16 28591 ++
  List.replicate 32 0

/-- A sample lies in a text-range pair's closed interval. -/
def inRange (x : ℚ) (p : RangePair) : Prop :=
  p.1 ≤ x ∧ x ≤ p.2.1

instance (x : ℚ) (p : RangePair) : Decidable (inRange x p) := by
  unfold inRange
  infer_instance

/-! ## Theorems -/

/-- Claim C2: for every raw column and Linear (kind 0) parameters, if
`P2 == 1.0` and `P1` is `+0.0` or `-0.0` (both equal to `0` in exact
arithmetic, exactly as Python's `in (0.0, -0.0)` float comparison), the
conversion returns the raw column itself unchanged, dtype included;
otherwise it returns elementwise `raw*P2 + P1`. -/
theorem c2_linearConv (data : Column) (P1 P2 : ℚ) :
    (P2 = 1 → P1 = 0 → linearConv data P1 P2 = data) ∧
    (¬(P2 = 1 ∧ P1 = 0) →
      (linearConv data P1 P2).values = data.values.map fun v => v * P2 + P1) := by
  constructor
  · intro h2 h1
    simp [linearConv, h1, h2]
  · intro h
    simp only [linearConv, if_neg h]

/-- Witness for C2 at the spec's S5 scenario: identity at `P1=0, P2=1`, and
`raw=[10,20,30], P1=-5, P2=1/2` maps to `[0, 5, 10]`. -/
theorem c2_linearConv_witness :
    linearConv ⟨"uint8", [10, 20, 30]⟩ 0 1 = ⟨"uint8", [10, 20, 30]⟩ ∧
    (linearConv ⟨"uint8", [10, 20, 30]⟩ (-5) (1 / 2)).values = [0, 5, 10] := by
  constructor
  · exact (c2_linearConv ⟨"uint8", [10, 20, 30]⟩ 0 1).1 rfl rfl
  · rw [(c2_linearConv ⟨"uint8", [10, 20, 30]⟩ (-5) (1 / 2)).2 (by norm_num)]
    norm_num

/-- Claim C5 is a code bug: on parameters satisfying the first branch
condition (`P4 = 0`, `P1 = P2 = 1` here, with `P6 = 1`, `P3 = P7 = 0`), the
two-sample column `[2, 3]` is NOT converted to the claimed
`exp(((x-P7)*P6 - P3)/P1)/P2` values — scalar `math.exp` applied to the
two-element numpy array raises `TypeError`, leaving no result (`none`) —
while a size-1 column `[2]` does produce the branch formula's value, and bad
parameters (`P1 = P4 = 0`) produce the per-channel warning and Python `None`
as the claim's `InvalidConversion` clause says. -/
theorem c5_expConv_eval :
    expConvData id ⟨1, 1, 0, 0, 0, 1, 0⟩ [2, 3] = none ∧
    expConvData id ⟨1, 1, 0, 0, 0, 1, 0⟩ [2, 3] ≠ some [2, 3] ∧
    expConvData id ⟨1, 1, 0, 0, 0, 1, 0⟩ [2] = some [2] ∧
    expConvData id ⟨0, 1, 0, 0, 0, 1, 0⟩ [2] = none := by
  refine ⟨by norm_num [expConvData], ?_, by norm_num [expConvData], by norm_num [expConvData]⟩
  intro h
  exact Option.noConfusion (h : (none : Option (List ℚ)) = some [2, 3])

/-- Claim C9: the file produced by the writer begins with a 64-byte IDBlock:
literal `MDF     `, then `3.30    ` and `MDFreadr`, byte-order 0, float
format 0, version number 330 little-endian at bytes 28-29, code page 28591,
and 32 reserved zero bytes. -/
theorem c9_write3_idblock :
    write3IdBlock.length = 64 ∧
    write3IdBlock.take 8 = strBytes "MDF     " ∧
    ((write3IdBlock.drop 8).take 8 = strBytes "3.30    " ∧
      (write3IdBlock.drop 16).take 8 = strBytes "MDFreadr") ∧
    (write3IdBlock.drop 24).take 2 = [0, 0] ∧
    (write3IdBlock.drop 26).take 2 = [0, 0] ∧
    (write3IdBlock.drop 28).take 2 = [330 % 256, 330 / 256] ∧
    (write3IdBlock.drop 30).take 2 = [28591 % 256, 28591 / 256] ∧
    write3IdBlock.drop 32 = List.replicate 32 0 := by
  decide

/-- Claim C6 is a code bug: a channel whose exp conversion parameters satisfy
neither branch (`P1 = 0` and `P4 = 0` here) does NOT retain its raw column.
`expConv` returns `None` after the warning, `_convertChannel3` stores that
`None` through the container's `setChannelData`, and the raw column `[5]` is
lost. -/
theorem c6_convertChannel_loses_raw :
    (_convertChannel3 id id ⟨some [5], some (.exp ⟨0, 1, 0, 0, 0, 1, 0⟩)⟩).data = none ∧
    (_convertChannel3 id id ⟨some [5], some (.exp ⟨0, 1, 0, 0, 0, 1, 0⟩)⟩).data ≠ some [5] := by
  refine ⟨rfl, ?_⟩
  intro h
  exact Option.noConfusion (rfl.trans h : (none : Option (List ℚ)) = some [5])

/-- Claim C1 is a code bug, evaluated here on the spec's S4 scenario.  The
as-written cursor advance (`position += CGrecordLength`, record-ID byte not
consumed) decodes the first record and then misreads the data byte `0xAA` as
a record ID, failing with an unknown-ID lookup instead of producing the
claimed columns; the spec-modelled advance (`CGrecordLength + 1`) produces
exactly the claimed per-channel vectors `{1: [0xAA, 0xBB], 2: [0x1234]}`. -/
theorem c1_unsorted_eval :
    loadUnSorted s4Schemas s4Stream = .error (.unknownID 0xAA) ∧
    loadUnSortedFixed s4Schemas s4Stream =
      .ok [("ch1", 0xAA), ("ch2", 0x1234), ("ch1", 0xBB)] ∧
    channelColumn [("ch1", 0xAA), ("ch2", 0x1234), ("ch1", 0xBB)] "ch1" = [0xAA, 0xBB] ∧
    channelColumn [("ch1", 0xAA), ("ch2", 0x1234), ("ch1", 0xBB)] "ch2" = [0x1234] := by
  refine ⟨rfl, rfl, rfl, rfl⟩

/-- Claim C3: for a channel whose `bit_count` is positive and not a multiple
of 8 and whose signal type is an integer one, the bit-repack post-step maps
every decoded value `v` to `(v >>> bit_offset) &&& (2^bit_count - 1)`; and
for `bit_count < 8` with an unsigned signal type the result is below
`2^bit_count`. -/
theorem c3_bit_repack (bitCount bitOffset signalDataType v : ℕ)
    (hpos : 0 < bitCount) (hmul : ¬ 8 ∣ bitCount)
    (htype : signalDataType ∈ ([0, 1, 9, 10, 13, 14] : List ℕ)) :
    repack3 bitCount bitOffset signalDataType v =
      (v >>> bitOffset) &&& (2 ^ bitCount - 1) ∧
    (bitCount < 8 → signalDataType ∈ ([0, 9, 13] : List ℕ) →
      repack3 bitCount bitOffset signalDataType v < 2 ^ bitCount) := by
  have hmod : bitCount % 8 ≠ 0 := fun h => hmul (Nat.dvd_of_mod_eq_zero h)
  have heq : repack3 bitCount bitOffset signalDataType v =
      (v >>> bitOffset) &&& (2 ^ bitCount - 1) := by
    simp only [repack3, if_pos hmod]
    rw [if_pos (by simpa using htype)]
  refine ⟨heq, fun _ _ => ?_⟩
  rw [heq]
  calc (v >>> bitOffset) &&& (2 ^ bitCount - 1) ≤ 2 ^ bitCount - 1 := Nat.and_le_right
    _ < 2 ^ bitCount := Nat.sub_lt (Nat.pos_pow_of_pos bitCount (by norm_num)) Nat.one_pos

/-- `findRange` returns `none` exactly when no triple's interval contains the
sample. -/
theorem findRange_eq_none (d : ℚ) :
    ∀ l : List RangePair, (findRange d l = none ↔ ∀ p ∈ l, ¬ inRange d p)
  | [] => by simp [findRange]
  | (lo, hi, t) :: rest => by
    simp only [findRange, List.mem_cons]
    by_cases h : lo ≤ d ∧ d ≤ hi
    · rw [if_pos h]
      simp only [reduceCtorEq, false_iff]
      exact fun hall => hall (lo, hi, t) (Or.inl rfl) h
    · rw [if_neg h, findRange_eq_none d rest]
      constructor
      · rintro hall p (rfl | hp)
        · exact h
        · exact hall p hp
      · exact fun hall p hp => hall p (Or.inr hp)

/-- `findRange` returns `some t` exactly when some triple's interval contains
the sample, `t` is the text of the first such triple, and every earlier
triple misses. -/
theorem findRange_eq_some (d : ℚ) :
    ∀ (l : List RangePair) (t : String),
      (findRange d l = some t ↔
        ∃ j, j < l.length ∧ inRange d (l.getD j (0, 0, "")) ∧
          t = (l.getD j (0, 0, "")).2.2 ∧
          ∀ k, k < j → ¬ inRange d (l.getD k (0, 0, "")))
  | [], t => by simp [findRange]
  | (lo, hi, tx) :: rest, t => by
    simp only [findRange]
    by_cases h : lo ≤ d ∧ d ≤ hi
    · rw [if_pos h]
      constructor
      · intro hsome
        refine ⟨0, by simp, h, by simpa using (Option.some.inj hsome).symm, by omega⟩
      · rintro ⟨j, hj, hin, ht, hfirst⟩
        match j with
        | 0 => simpa using ht.symm
        | j + 1 => exact absurd h (by simpa [inRange] using hfirst 0 (Nat.succ_pos j))
    · rw [if_neg h, findRange_eq_some d rest t]
      constructor
      · rintro ⟨j, hj, hin, ht, hfirst⟩
        refine ⟨j + 1, by simpa using hj, by simpa using hin, by simpa using ht, ?_⟩
        intro k hk
        match k with
        | 0 => simpa [inRange] using h
        | k + 1 => simpa using hfirst k (by omega)
      · rintro ⟨j, hj, hin, ht, hfirst⟩
        match j with
        | 0 => exact absurd (by simpa [inRange] using hin) h
        | j + 1 =>
          refine ⟨j, by simpa using hj, by simpa using hin, by simpa using ht, ?_⟩
          intro k hk
          simpa using hfirst (k + 1) (by omega)

/-- Claim C4: for a non-empty TextRangeTable `t0 :: rest`, the output exists,
has one entry per sample, and each entry is the text of the first triple,
scanning table indices 1 upward (`rest` indices 0 upward), whose closed
interval contains the sample, or the index-0 text `t0.2.2` when no triple
with index ≥ 1 contains it. -/
theorem c4_textRangeTable (data : List ℚ) (t0 : RangePair) (rest : List RangePair) :
    ∃ out, textRangeTableConv data (t0 :: rest) = some out ∧
      out.length = data.length ∧
      ∀ i, i < data.length →
        ((∃ j, j < rest.length ∧ inRange (data.getD i 0) (rest.getD j (0, 0, "")) ∧
            out.getD i "" = (rest.getD j (0, 0, "")).2.2 ∧
            ∀ k, k < j → ¬ inRange (data.getD i 0) (rest.getD k (0, 0, ""))) ∨
          ((∀ p ∈ rest, ¬ inRange (data.getD i 0) p) ∧ out.getD i "" = t0.2.2)) := by
  refine ⟨data.map fun d => (findRange d rest).getD t0.2.2, rfl, by simp, ?_⟩
  intro i hi
  obtain ⟨x, hx⟩ : ∃ x, data[i]? = some x := by
    rw [List.getElem?_eq_getElem hi]
    exact ⟨_, rfl⟩
  have hdata : data.getD i 0 = x := by
    rw [List.getD_eq_getElem?_getD, hx]
    rfl
  have hout : (data.map fun d => (findRange d rest).getD t0.2.2).getD i "" =
      (findRange x rest).getD t0.2.2 := by
    rw [List.getD_eq_getElem?_getD, List.getElem?_map, hx]
    rfl
  rw [hdata, hout]
  cases hf : findRange x rest with
  | none =>
    exact Or.inr ⟨(findRange_eq_none x rest).1 hf, by simp⟩
  | some t =>
    obtain ⟨j, hj, hin, ht, hfirst⟩ := (findRange_eq_some x rest t).1 hf
    exact Or.inl ⟨j, hj, hin, by simp [ht], hfirst⟩

/-- Witness for C4: table with default text `default` and ranges
`[1,2] ↦ low`, `[2,3] ↦ mid`; the sample `10` matches no range and gets the
default. -/
theorem c4_textRangeTable_witness :
    ∃ out, textRangeTableConv [3 / 2, 10]
        [(0, 0, "default"), (1, 2, "low"), (2, 3, "mid")] = some out ∧
      out.getD 1 "" = "default" := by
  obtain ⟨out, h1, hlen, h3⟩ :=
    c4_textRangeTable [3 / 2, 10] (0, 0, "default") [(1, 2, "low"), (2, 3, "mid")]
  refine ⟨out, h1, ?_⟩
  rcases h3 1 (by norm_num) with ⟨j, hj, hin, -, -⟩ | ⟨-, hout⟩
  · exfalso
    simp only [List.length_cons, List.length_nil] at hj
    interval_cases j <;> revert hin <;> decide
  · exact hout

/-- `getD` agrees with `get` inside the list's length. -/
theorem getD_eq_get {α : Type} (l : List α) (dflt : α) (j : ℕ) (h : j < l.length) :
    l.getD j dflt = l.get ⟨j, h⟩ := by
  rw [List.getD_eq_getElem?_getD, List.getElem?_eq_getElem h]
  rfl

/-- `getD` on a mapped-out first component. -/
theorem getD_map_fst (l : List (ℚ × ℚ)) (j : ℕ) (h : j < l.length) :
    (l.map Prod.fst).getD j 0 = (l.getD j (0, 0)).1 := by
  rw [List.getD_eq_getElem?_getD, List.getD_eq_getElem?_getD, List.getElem?_map,
    List.getElem?_eq_getElem h]
  rfl

/-- In a `≤`-sorted list, `getD` is monotone in the index. -/
theorem pairwise_getD_le (xs : List ℚ) (hs : List.Pairwise (· ≤ ·) xs) (j k : ℕ)
    (hjk : j ≤ k) (hk : k < xs.length) : xs.getD j 0 ≤ xs.getD k 0 := by
  rcases Nat.eq_or_lt_of_le hjk with rfl | hlt
  · exact le_refl _
  · have h := List.pairwise_iff_get.1 hs ⟨j, Nat.lt_trans hlt hk⟩ ⟨k, hk⟩
      (Fin.mk_lt_mk.2 hlt)
    rw [getD_eq_get xs 0 j (Nat.lt_trans hlt hk), getD_eq_get xs 0 k hk]
    exact h

/-- One-sample `tabConv` as an indexed lookup. -/
theorem tabConv_singleton (table : List (ℚ × ℚ)) (d : ℚ) :
    tabConv table [d] =
      ((table.map Prod.snd).get? (searchsorted (table.map Prod.fst) d)).map
        fun y => [y] := by
  cases h : (table.map Prod.snd).get? (searchsorted (table.map Prod.fst) d) <;>
    · simp only [List.get?_eq_getElem?, List.getElem?_map] at h
      simp [tabConv, List.mapM, List.mapM.loop, h]

/-- When at least one table abscissa is `≥ d`, `searchsorted` lands on the
first such index and `tabConv` returns its ordinate. -/
theorem tabConv_first_ge (d : ℚ) :
    ∀ table : List (ℚ × ℚ), (∃ p ∈ table, d ≤ p.1) →
      ∃ j, j < table.length ∧
        searchsorted (table.map Prod.fst) d = j ∧
        d ≤ (table.getD j (0, 0)).1 ∧
        (∀ k, k < j → (table.getD k (0, 0)).1 < d) ∧
        tabConv table [d] = some [(table.getD j (0, 0)).2]
  | [], h => absurd h (by simp)
  | (x, y) :: rest, h => by
    by_cases hd : d ≤ x
    · refine ⟨0, by simp, ?_, by simpa using hd, by omega, ?_⟩
      · simp [searchsorted, hd]
      · rw [tabConv_singleton]
        simp [searchsorted, hd]
    · have hrest : ∃ p ∈ rest, d ≤ p.1 := by
        rcases h with ⟨p, hp, hdp⟩
        rcases List.mem_cons.1 hp with rfl | hp2
        · exact absurd hdp hd
        · exact ⟨p, hp2, hdp⟩
      obtain ⟨j, hj, hs, hdj, hfirst, htab⟩ := tabConv_first_ge d rest hrest
      refine ⟨j + 1, by simpa using hj, ?_, by simpa using hdj, ?_, ?_⟩
      · simp [searchsorted, hd, hs]
      · intro k hk
        match k with
        | 0 => simpa using not_le.1 hd
        | k + 1 =>
          rw [List.getD_cons_succ]
          exact hfirst k (by omega)
      · rw [tabConv_singleton] at htab ⊢
        simp only [List.map_cons, searchsorted, if_neg hd, hs, List.get?_cons_succ,
          List.getD_cons_succ]
        simpa [hs] using htab

/-- Claim C7, amended: `tabConv` computes the leftmost insertion index via
sorted search and returns the ordinate there — a nearest-not-SMALLER
(ceiling) lookup: the hit is the first (and, by sortedness, minimal) entry
whose abscissa is `≥` the input, every earlier abscissa being `< ` it; inputs
above every abscissa are out of bounds (claim C10). -/
theorem c7_tabConv_ceiling (table : List (ℚ × ℚ)) (d : ℚ)
    (hsorted : List.Pairwise (· ≤ ·) (table.map Prod.fst))
    (hex : ∃ p ∈ table, d ≤ p.1) :
    ∃ j, j < table.length ∧
      searchsorted (table.map Prod.fst) d = j ∧
      d ≤ (table.getD j (0, 0)).1 ∧
      (∀ k, k < j → (table.getD k (0, 0)).1 < d) ∧
      (∀ k, k < table.length → d ≤ (table.getD k (0, 0)).1 →
        (table.getD j (0, 0)).1 ≤ (table.getD k (0, 0)).1) ∧
      tabConv table [d] = some [(table.getD j (0, 0)).2] := by
  obtain ⟨j, hj, hs, hdj, hfirst, htab⟩ := tabConv_first_ge d table hex
  refine ⟨j, hj, hs, hdj, hfirst, ?_, htab⟩
  intro k hk hdk
  rcases lt_trichotomy k j with hlt | rfl | hgt
  · exact absurd hdk (not_le.2 (hfirst k hlt))
  · exact le_refl _
  · have h1 := pairwise_getD_le (table.map Prod.fst) hsorted j k (le_of_lt hgt)
      (by simpa using hk)
    rw [getD_map_fst table j hj, getD_map_fst table k hk] at h1
    exact h1

/-- Counterexample to claim C7 as stated: on the sorted table
`[(0, 100), (10, 200)]` the input `5` yields `200` (the entry at the larger
abscissa `10`), while the claimed nearest-not-greater lookup would give
`100` (the entry at the largest abscissa not exceeding `5`). -/
theorem c7_tab_counterexample :
    tabConv [((0 : ℚ), (100 : ℚ)), (10, 200)] [5] = some [200] ∧
    nearestNotGreaterConv [((0 : ℚ), (100 : ℚ)), (10, 200)] [5] = some [100] ∧
    ((200 : ℚ) ≠ 100) := by
  refine ⟨by decide, by decide, by norm_num⟩

/-- Witness for the amended C7 on the same table and input. -/
theorem c7_tabConv_ceiling_witness :
    tabConv [((0 : ℚ), (100 : ℚ)), (10, 200)] [5] = some [200] := by
  obtain ⟨j, hj, hs, -, -, -, htab⟩ :=
    c7_tabConv_ceiling [((0 : ℚ), (100 : ℚ)), (10, 200)] 5 (by decide) (by decide)
  have hj1 : j = 1 := by
    rw [← hs]
    decide
  rw [hj1] at htab
  exact htab.trans (by decide)

/-- When every element is `< d`, the leftmost insertion index is the
length. -/
theorem searchsorted_all_lt (d : ℚ) :
    ∀ xs : List ℚ, (∀ x ∈ xs, x < d) → searchsorted xs d = xs.length
  | [], _ => rfl
  | x :: rest, h => by
    simp only [searchsorted, if_neg (not_le.2 (h x (List.mem_cons_self x rest)))]
    rw [searchsorted_all_lt d rest fun z hz => h z (List.mem_cons_of_mem x hz)]
    rfl

/-- Claim C10: for any input strictly above every table abscissa the sorted
search returns the table length, the ordinate lookup is out of bounds, and
`tabConv` fails with an indexing error (`none`) which `_convert3` propagates
unguarded instead of clamping. -/
theorem c10_tab_out_of_range (table : List (ℚ × ℚ)) (d : ℚ) (E L : ℚ → ℚ)
    (h : ∀ p ∈ table, p.1 < d) :
    searchsorted (table.map Prod.fst) d = table.length ∧
    tabConv table [d] = none ∧
    _convert3 E L ⟨some [d], some (.tab table)⟩ = none := by
  have hs : searchsorted (table.map Prod.fst) d = table.length := by
    rw [searchsorted_all_lt d (table.map Prod.fst) ?_, List.length_map]
    intro x hx
    obtain ⟨p, hp, rfl⟩ := List.mem_map.1 hx
    exact h p hp
  have hnone : (table.map Prod.snd).get? (searchsorted (table.map Prod.fst) d) = none := by
    rw [hs, List.get?_eq_getElem?]
    exact List.getElem?_eq_none (by simp)
  have ht : tabConv table [d] = none := by
    rw [tabConv_singleton, hnone]
    rfl
  refine ⟨hs, ht, ?_⟩
  simp [_convert3, ht]

/-- Witness for C10: input `11` is above both abscissas of
`[(0, 100), (10, 200)]`; index 2 is out of bounds. -/
theorem c10_tab_out_of_range_witness :
    searchsorted ([((0 : ℚ), (100 : ℚ)), (10, 200)].map Prod.fst) 11 = 2 ∧
    tabConv [((0 : ℚ), (100 : ℚ)), (10, 200)] [11] = none ∧
    _convert3 id id ⟨some [11], some (.tab [((0 : ℚ), (100 : ℚ)), (10, 200)])⟩ = none := by
  have h := c10_tab_out_of_range [((0 : ℚ), (100 : ℚ)), (10, 200)] 11 id id (by decide)
  exact ⟨by simpa using h.1, h.2.1, h.2.2⟩

/-- Witness for C3 at the spec's S2 scenario: byte `0b10110101`, channel at
bit offset 5 with 3 bits decodes to 5, below `2^3`. -/
theorem c3_bit_repack_witness :
    repack3 3 5 0 0xB5 = (0xB5 >>> 5) &&& (2 ^ 3 - 1) ∧
    repack3 3 5 0 0xB5 = 5 ∧ repack3 3 5 0 0xB5 < 2 ^ 3 := by
  have h := c3_bit_repack 3 5 0 0xB5 (by decide) (by decide) (by decide)
  exact ⟨h.1, by decide, h.2 (by decide) (by decide)⟩

/-- `w` built by `widenBytes` is the next width of {8, 16, 32, 64}. -/
theorem isNextWidth_widen (n : ℕ) (hn : n ≤ 64) : IsNextWidth n (8 * widenBytes n) := by
  unfold IsNextWidth widenBytes
  split_ifs <;>
    refine ⟨by decide, by omega, ?_⟩ <;>
    · intro w2 hw2 hnw
      simp only [List.mem_cons, List.not_mem_nil, or_false] at hw2
      rcases hw2 with rfl | rfl | rfl | rfl <;> omega

/-- For the unsigned integer types the base chain produces `u` of the widened
byte count. -/
theorem arrayBase_unsigned (t n : ℕ) (ht : t = 0 ∨ t = 9 ∨ t = 13) (hn : n ≤ 64) :
    _arrayBase t n = some (.u (widenBytes n)) := by
  obtain rfl | rfl | rfl := ht <;>
    · simp only [_arrayBase, widenBytes]
      split_ifs <;> first | rfl | omega | simp_all

/-- For the signed integer types the base chain produces `i` of the widened
byte count. -/
theorem arrayBase_signed (t n : ℕ) (ht : t = 1 ∨ t = 10 ∨ t = 14) (hn : n ≤ 64) :
    _arrayBase t n = some (.i (widenBytes n)) := by
  obtain rfl | rfl | rfl := ht <;>
    · simp only [_arrayBase, widenBytes]
      split_ifs <;> first | rfl | omega | simp_all

/-- Exhaustive case split of the width chains for `n ≤ 64`. -/
theorem widen_cases (n : ℕ) (hn : n ≤ 64) :
    (n ≤ 8 ∧ widenBytes n = 1) ∨
    (¬ n ≤ 8 ∧ n ≤ 16 ∧ widenBytes n = 2) ∨
    (¬ n ≤ 8 ∧ ¬ n ≤ 16 ∧ n ≤ 32 ∧ widenBytes n = 4) ∨
    (¬ n ≤ 8 ∧ ¬ n ≤ 16 ∧ ¬ n ≤ 32 ∧ n ≤ 64 ∧ widenBytes n = 8) := by
  by_cases h1 : n ≤ 8
  · exact Or.inl ⟨h1, by simp [widenBytes, h1]⟩
  by_cases h2 : n ≤ 16
  · exact Or.inr (Or.inl ⟨h1, h2, by simp [widenBytes, h1, h2]⟩)
  by_cases h3 : n ≤ 32
  · exact Or.inr (Or.inr (Or.inl ⟨h1, h2, h3, by simp [widenBytes, h1, h2, h3]⟩))
  · exact Or.inr (Or.inr (Or.inr ⟨h1, h2, h3, hn, by simp [widenBytes, h1, h2, h3]⟩))

/-- For the unsigned integer types the struct-code chain produces the code of
the widened byte count. -/
theorem dtCode_unsigned (t n : ℕ) (ht : t = 0 ∨ t = 9 ∨ t = 13) (hn : n ≤ 64) :
    ∃ s, _dtCode t n = some s ∧ structCodeBits s = 8 * widenBytes n := by
  have hrow : _dtCode t n =
      (if n ≤ 8 then some "B" else if n ≤ 16 then some "H" else if n ≤ 32 then some "I"
        else if n ≤ 64 then some "Q" else none) := by
    obtain rfl | rfl | rfl := ht <;>
      · simp only [_dtCode]
        rw [if_pos (by norm_num)]
  rcases widen_cases n hn with ⟨h1, hw⟩ | ⟨h1, h2, hw⟩ | ⟨h1, h2, h3, hw⟩ |
      ⟨h1, h2, h3, h4, hw⟩ <;> rw [hw, hrow]
  · exact ⟨"B", by rw [if_pos h1], by decide⟩
  · exact ⟨"H", by rw [if_neg h1, if_pos h2], by decide⟩
  · exact ⟨"I", by rw [if_neg h1, if_neg h2, if_pos h3], by decide⟩
  · exact ⟨"Q", by rw [if_neg h1, if_neg h2, if_neg h3, if_pos h4], by decide⟩

/-- For the signed integer types the struct-code chain produces the code of
the widened byte count. -/
theorem dtCode_signed (t n : ℕ) (ht : t = 1 ∨ t = 10 ∨ t = 14) (hn : n ≤ 64) :
    ∃ s, _dtCode t n = some s ∧ structCodeBits s = 8 * widenBytes n := by
  have hrow : _dtCode t n =
      (if n ≤ 8 then some "b" else if n ≤ 16 then some "h" else if n ≤ 32 then some "i"
        else if n ≤ 64 then some "q" else none) := by
    obtain rfl | rfl | rfl := ht <;>
      · simp only [_dtCode]
        rw [if_neg (by norm_num), if_pos (by norm_num)]
  rcases widen_cases n hn with ⟨h1, hw⟩ | ⟨h1, h2, hw⟩ | ⟨h1, h2, h3, hw⟩ |
      ⟨h1, h2, h3, h4, hw⟩ <;> rw [hw, hrow]
  · exact ⟨"b", by rw [if_pos h1], by decide⟩
  · exact ⟨"h", by rw [if_neg h1, if_pos h2], by decide⟩
  · exact ⟨"i", by rw [if_neg h1, if_neg h2, if_pos h3], by decide⟩
  · exact ⟨"q", by rw [if_neg h1, if_neg h2, if_neg h3, if_pos h4], by decide⟩

/-- For integer types, more than 64 bits falls off every width test. -/
theorem arrayBase_reject (t n : ℕ) (ht : t ∈ ([0, 1, 9, 10, 13, 14] : List ℕ))
    (hn : 64 < n) : _arrayBase t n = none ∧ _dtCode t n = none := by
  have h1 : ¬ n ≤ 8 := by omega
  have h2 : ¬ n ≤ 16 := by omega
  have h3 : ¬ n ≤ 32 := by omega
  have h4 : ¬ n ≤ 64 := by omega
  fin_cases ht <;> exact ⟨by simp [_arrayBase, h1, h2, h3, h4],
    by simp [_dtCode, h1, h2, h3, h4]⟩

/-- The map step keeps the byte-order mark. -/
theorem bom_map_array (o : Option NpBase) (m : Bom) (nt : NpType)
    (h : (o.map fun b => NpType.mk b m) = some nt) : nt.bom = m := by
  rcases Option.map_eq_some'.1 h with ⟨b, -, rfl⟩
  rfl

/-- The map step keeps the byte-order mark (struct-code variant). -/
theorem bom_map_dt (o : Option String) (m : Bom) (sc : String × Bom)
    (h : (o.map fun s => (s, m)) = some sc) : sc.2 = m := by
  rcases Option.map_eq_some'.1 h with ⟨b, -, rfl⟩
  rfl

/-- Types 9-12 always get the big-endian mark. -/
theorem fmtBom_be (t : ℕ) (bo : Bool) (ht : t ∈ ([9, 10, 11, 12] : List ℕ)) :
    _fmtBom t bo = .be := by
  fin_cases ht <;> rfl

/-- Types 13-16 always get the little-endian mark. -/
theorem fmtBom_le (t : ℕ) (bo : Bool) (ht : t ∈ ([13, 14, 15, 16] : List ℕ)) :
    _fmtBom t bo = .le := by
  fin_cases ht <;> rfl

/-- Types 0-3 follow the file byte-order flag. -/
theorem fmtBom_flag (t : ℕ) (bo : Bool) (ht : t ∈ ([0, 1, 2, 3] : List ℕ)) :
    _fmtBom t bo = (if bo then .be else .le) := by
  fin_cases ht <;> rfl

/-- Claim C8: the type encoder widens integer `n_bits` up to the next of
{8, 16, 32, 64} (in both its numpy-dtype and struct-code variants) and
rejects more than 64 bits; the byte-order mark of the produced type is
big-endian for signal types 9-12 and little-endian for 13-16 regardless of
the file byte-order flag, while types 0-3 follow the flag. -/
theorem c8_type_encoder (t n : ℕ) (bo : Bool) :
    (t ∈ ([0, 1, 9, 10, 13, 14] : List ℕ) →
      (n ≤ 64 → ∃ nt, _arrayformat3 t n bo = some nt ∧ IsNextWidth n nt.base.bits ∧
        ∃ sc, _datatypeformat3 t n bo = some sc ∧ structCodeBits sc.1 = nt.base.bits) ∧
      (64 < n → _arrayformat3 t n bo = none ∧ _datatypeformat3 t n bo = none)) ∧
    (t ∈ ([9, 10, 11, 12] : List ℕ) →
      (∀ nt, _arrayformat3 t n bo = some nt → nt.bom = .be) ∧
      (∀ sc, _datatypeformat3 t n bo = some sc → sc.2 = .be)) ∧
    (t ∈ ([13, 14, 15, 16] : List ℕ) →
      (∀ nt, _arrayformat3 t n bo = some nt → nt.bom = .le) ∧
      (∀ sc, _datatypeformat3 t n bo = some sc → sc.2 = .le)) ∧
    (t ∈ ([0, 1, 2, 3] : List ℕ) →
      (∀ nt, _arrayformat3 t n bo = some nt → nt.bom = (if bo then .be else .le)) ∧
      (∀ sc, _datatypeformat3 t n bo = some sc → sc.2 = (if bo then .be else .le))) := by
  refine ⟨fun ht => ⟨fun hn => ?_, fun hn => ?_⟩,
    fun ht => ⟨fun nt h => ?_, fun sc h => ?_⟩,
    fun ht => ⟨fun nt h => ?_, fun sc h => ?_⟩,
    fun ht => ⟨fun nt h => ?_, fun sc h => ?_⟩⟩
  · have ht2 : (t = 0 ∨ t = 9 ∨ t = 13) ∨ (t = 1 ∨ t = 10 ∨ t = 14) := by
      fin_cases ht <;> tauto
    rcases ht2 with hu | hs
    · obtain ⟨s, hcode, hbits⟩ := dtCode_unsigned t n hu hn
      refine ⟨⟨.u (widenBytes n), _fmtBom t bo⟩, ?_, ?_, (s, _fmtBom t bo), ?_, ?_⟩
      · simp [_arrayformat3, arrayBase_unsigned t n hu hn]
      · simpa [NpBase.bits] using isNextWidth_widen n hn
      · simp [_datatypeformat3, hcode]
      · simpa [NpBase.bits] using hbits
    · obtain ⟨s, hcode, hbits⟩ := dtCode_signed t n hs hn
      refine ⟨⟨.i (widenBytes n), _fmtBom t bo⟩, ?_, ?_, (s, _fmtBom t bo), ?_, ?_⟩
      · simp [_arrayformat3, arrayBase_signed t n hs hn]
      · simpa [NpBase.bits] using isNextWidth_widen n hn
      · simp [_datatypeformat3, hcode]
      · simpa [NpBase.bits] using hbits
  · obtain ⟨h1, h2⟩ := arrayBase_reject t n ht hn
    exact ⟨by simp [_arrayformat3, h1], by simp [_datatypeformat3, h2]⟩
  · rw [bom_map_array _ _ nt h]
    exact fmtBom_be t bo ht
  · rw [bom_map_dt _ _ sc h]
    exact fmtBom_be t bo ht
  · rw [bom_map_array _ _ nt h]
    exact fmtBom_le t bo ht
  · rw [bom_map_dt _ _ sc h]
    exact fmtBom_le t bo ht
  · rw [bom_map_array _ _ nt h]
    exact fmtBom_flag t bo ht
  · rw [bom_map_dt _ _ sc h]
    exact fmtBom_flag t bo ht

/-- Witness for C8 at signal type 13 (unsigned, always little-endian),
12 bits, big-endian file flag: widened to a 2-byte `u`, struct code `H`,
little-endian mark despite the flag. -/
theorem c8_type_encoder_witness :
    _arrayformat3 13 12 true = some ⟨.u 2, .le⟩ ∧
    _datatypeformat3 13 12 true = some ("H", .le) ∧
    IsNextWidth 12 16 := by
  obtain ⟨hA, -⟩ := (c8_type_encoder 13 12 true).1 (by decide)
  obtain ⟨nt, h1, h2, sc, h3, h4⟩ := hA (by norm_num)
  have e1 : _arrayformat3 13 12 true = some ⟨.u 2, .le⟩ := by decide
  have e3 : _datatypeformat3 13 12 true = some ("H", .le) := by decide
  refine ⟨e1, e3, ?_⟩
  have hnt : nt = ⟨.u 2, .le⟩ := by
    rw [e1] at h1
    exact (Option.some.inj h1).symm
  rw [hnt] at h2
  simpa [NpBase.bits] using h2

end Mdf3
